import Mathlib

/-!
Shallow embedding of the status-aggregation and history-tracking core of
`squad/core/models.py`, together with proofs checking the natural-language
specification against it.

Conventions:
- Python dicts with string keys are modelled as insertion-ordered association
  lists (`MDict`); Python dict equality (order-independent) is `dictEq`.
- Values of already-parsed metadata mappings are modelled by `JVal`
  (strings and integers suffice for every intersection property under
  scrutiny; values are compared by equality exactly as in Python); the
  full parse trees produced by `json.loads` are modelled by `Json`.
- Python's tri-state `NullBooleanField` is `Option Bool`
  (`some true` = pass, `some false` = fail, `none` = unknown/skipped).
- Datetimes are modelled as integers (only their ordering matters).
- Exceptions are modelled by `Option`: `none` means the Python code raises.
-/

/-- A JSON-compatible metadata value, compared by equality as in Python. -/
inductive JVal where
  | s (v : String)
  | n (v : Int)
deriving DecidableEq

/-- A Python dict with string keys: insertion-ordered association list. -/
abbrev MDict := List (String × JVal)

/-- Dict lookup `d[k]`: first binding wins (keys are unique in actual dicts). -/
def dlookup (d : MDict) (k : String) : Option JVal :=
  match d with
  | [] => none
  | (k', v) :: rest => if k' = k then some v else dlookup rest k

/-- Model of `dict_intersection(d1, d2)` from models.py:
`{k: d1[k] for k in d1 if (k in d2 and d2[k] == d1[k])}` —
iterates `d1` in order, keeping entries present with an equal value in `d2`. -/
def dict_intersection (d1 d2 : MDict) : MDict :=
  d1.filter (fun kv => dlookup d2 kv.1 = some kv.2)

/-- Model of `Build.metadata` from models.py: fold over the build's test runs'
metadata, starting from `{}`; at each run, if the accumulator is truthy
(non-empty) intersect it with the run's metadata, otherwise replace it by
the run's metadata. -/
def build_metadata (runs : List MDict) : MDict :=
  runs.foldl (fun md tr => if md = [] then tr else dict_intersection md tr) []

/-- Python dict equality: same key set with equal values (order-independent). -/
def dictEq (d1 d2 : MDict) : Prop :=
  ∀ k, dlookup d1 k = dlookup d2 k

lemma dlookup_eq_none_of_not_mem (d : MDict) (k : String)
    (h : k ∉ d.map Prod.fst) : dlookup d k = none := by
  induction d with
  | nil => rfl
  | cons kv rest ih =>
    simp only [List.map_cons, List.mem_cons, not_or] at h
    simp only [dlookup, if_neg (Ne.symm h.1), ih h.2]

instance (d1 d2 : MDict) : Decidable (dictEq d1 d2) := by
  unfold dictEq
  exact decidable_of_iff
    (∀ k ∈ d1.map Prod.fst ++ d2.map Prod.fst, dlookup d1 k = dlookup d2 k)
    (by
      constructor
      · intro h k
        by_cases h1 : k ∈ d1.map Prod.fst ++ d2.map Prod.fst
        · exact h k h1
        · rw [List.mem_append, not_or] at h1
          rw [dlookup_eq_none_of_not_mem d1 k h1.1,
            dlookup_eq_none_of_not_mem d2 k h1.2]
      · intro h k _
        exact h k)

/-- JSON whitespace skipping, as in Python's `json` module. -/
def skipWs : List Char → List Char
  | [] => []
  | c :: cs => if c = ' ' ∨ c = '\t' ∨ c = '\n' ∨ c = '\r' then skipWs cs else c :: cs

/-- A JSON parse tree, as produced by Python's `json.loads`: strings,
numbers (kept as their source token, since no property under scrutiny
depends on numeric value equality), booleans, null, arrays and objects. -/
inductive Json where
  | str (v : String)
  | num (v : String)
  | bool (v : Bool)
  | nullv
  | arr (vs : List Json)
  | obj (ms : List (String × Json))

/-- Value of a hexadecimal digit, for `\\uXXXX` string escapes. -/
def hexVal (c : Char) : Option Nat :=
  if c.isDigit then some (c.toNat - 48)
  else if 'a' ≤ c ∧ c ≤ 'f' then some (c.toNat - 87)
  else if 'A' ≤ c ∧ c ≤ 'F' then some (c.toNat - 55)
  else none

/-- Decode a single-character JSON string escape. -/
def escChar (e : Char) : Option Char :=
  if e = '"' then some '"'
  else if e = '\\' then some '\\'
  else if e = '/' then some '/'
  else if e = 'b' then some (Char.ofNat 8)
  else if e = 'f' then some (Char.ofNat 12)
  else if e = 'n' then some '\n'
  else if e = 'r' then some '\r'
  else if e = 't' then some '\t'
  else none

/-- Scan the body of a JSON string up to the closing quote, decoding
escapes; fails on unterminated input, invalid escapes and raw control
characters (which Python's strict decoder rejects). A `\\uXXXX` escape
becomes the single character with that code point (surrogate pairs are not
recombined; no property under scrutiny depends on them). -/
def parseStringBody : Nat → List Char → Option (List Char × List Char)
  | 0, _ => none
  | fuel + 1, cs =>
    match cs with
    | [] => none
    | c :: rest =>
      if c = '"' then some ([], rest)
      else if c = '\\' then
        match rest with
        | [] => none
        | e :: rest2 =>
          if e = 'u' then
            match rest2 with
            | h1 :: h2 :: h3 :: h4 :: rest3 =>
              match hexVal h1, hexVal h2, hexVal h3, hexVal h4 with
              | some a, some b, some c2, some d =>
                match parseStringBody fuel rest3 with
                | some (body, r) =>
                  some (Char.ofNat (((a * 16 + b) * 16 + c2) * 16 + d) :: body, r)
                | none => none
              | _, _, _, _ => none
            | _ => none
          else
            match escChar e with
            | some d =>
              match parseStringBody fuel rest2 with
              | some (body, r) => some (d :: body, r)
              | none => none
            | none => none
      else if c.toNat < 32 then none
      else
        match parseStringBody fuel rest with
        | some (body, r) => some (c :: body, r)
        | none => none

/-- Split off a (possibly empty) run of decimal digits. -/
def spanDigits (cs : List Char) : List Char × List Char :=
  (cs.takeWhile Char.isDigit, cs.dropWhile Char.isDigit)

/-- Lex the integer part of a JSON number: `0`, or a nonzero digit followed
by digits (leading zeros are rejected, as in JSON). -/
def parseIntPart : List Char → Option (List Char × List Char)
  | [] => none
  | c :: cs =>
    if c = '0' then some ([c], cs)
    else if c.isDigit then
      match spanDigits cs with
      | (ds, r) => some (c :: ds, r)
    else none

/-- Lex an optional fraction part: `.` followed by at least one digit. -/
def parseFracPart : List Char → Option (List Char × List Char)
  | '.' :: cs =>
    match spanDigits cs with
    | ([], _) => none
    | (ds, r) => some ('.' :: ds, r)
  | cs => some ([], cs)

/-- Lex an optional exponent part: `e`/`E`, optional sign, digits. -/
def parseExpPart : List Char → Option (List Char × List Char)
  | [] => some ([], [])
  | c :: cs =>
    if c = 'e' ∨ c = 'E' then
      match cs with
      | s :: t =>
        if s = '+' ∨ s = '-' then
          match spanDigits t with
          | ([], _) => none
          | (ds, r) => some (c :: s :: ds, r)
        else
          match spanDigits cs with
          | ([], _) => none
          | (ds, r) => some (c :: ds, r)
      | [] => none
    else some ([], c :: cs)

/-- Lex a JSON number token: optional minus, integer part, optional
fraction, optional exponent. -/
def parseNumber (cs : List Char) : Option (List Char × List Char) :=
  let (neg, cs1) :=
    match cs with
    | '-' :: t => (['-'], t)
    | _ => (([] : List Char), cs)
  match parseIntPart cs1 with
  | none => none
  | some (ip, r1) =>
    match parseFracPart r1 with
    | none => none
    | some (fp, r2) =>
      match parseExpPart r2 with
      | none => none
      | some (ep, r3) => some (neg ++ ip ++ fp ++ ep, r3)

mutual

/-- Parse one JSON value (object, array, string, number, `true`, `false`,
`null`, and Python's accepted `NaN`/`Infinity`/`-Infinity` constants) after
skipping whitespace. Fuel-indexed mutual recursion; the fuel passed by
`json_loads` is linear in the input length and always suffices, since at
least one input character is consumed every few steps. -/
def parseValue : Nat → List Char → Option (Json × List Char)
  | 0, _ => none
  | fuel + 1, cs =>
    match skipWs cs with
    | [] => none
    | c :: rest =>
      if c = '\x7b' then
        match skipWs rest with
        | '\x7d' :: r => some (.obj [], r)
        | cs2 =>
          match parseObjectBody fuel cs2 with
          | some (ms, r) => some (.obj ms, r)
          | none => none
      else if c = '[' then
        match skipWs rest with
        | ']' :: r => some (.arr [], r)
        | cs2 =>
          match parseArrayBody fuel cs2 with
          | some (vs, r) => some (.arr vs, r)
          | none => none
      else if c = '"' then
        match parseStringBody fuel rest with
        | some (body, r) => some (.str ⟨body⟩, r)
        | none => none
      else if "true".data.isPrefixOf (c :: rest) then some (.bool true, (c :: rest).drop 4)
      else if "false".data.isPrefixOf (c :: rest) then some (.bool false, (c :: rest).drop 5)
      else if "null".data.isPrefixOf (c :: rest) then some (.nullv, (c :: rest).drop 4)
      else if "NaN".data.isPrefixOf (c :: rest) then some (.num "NaN", (c :: rest).drop 3)
      else if "Infinity".data.isPrefixOf (c :: rest) then
        some (.num "Infinity", (c :: rest).drop 8)
      else if "-Infinity".data.isPrefixOf (c :: rest) then
        some (.num "-Infinity", (c :: rest).drop 9)
      else
        match parseNumber (c :: rest) with
        | some (tok, r) => some (.num ⟨tok⟩, r)
        | none => none

/-- Parse the members of a non-empty JSON object after its opening brace:
`"key" : value` pairs separated by commas, ended by the closing brace
(trailing commas rejected, as in JSON). -/
def parseObjectBody : Nat → List Char → Option (List (String × Json) × List Char)
  | 0, _ => none
  | fuel + 1, cs =>
    match skipWs cs with
    | '"' :: r =>
      match parseStringBody fuel r with
      | some (kbody, r2) =>
        match skipWs r2 with
        | ':' :: r3 =>
          match parseValue fuel r3 with
          | some (v, r4) =>
            match skipWs r4 with
            | ',' :: r5 =>
              match parseObjectBody fuel r5 with
              | some (ms, r6) => some ((⟨kbody⟩, v) :: ms, r6)
              | none => none
            | '\x7d' :: r5 => some ([(⟨kbody⟩, v)], r5)
            | _ => none
          | none => none
        | _ => none
      | none => none
    | _ => none

/-- Parse the elements of a non-empty JSON array after its opening bracket:
values separated by commas, ended by the closing bracket. -/
def parseArrayBody : Nat → List Char → Option (List Json × List Char)
  | 0, _ => none
  | fuel + 1, cs =>
    match parseValue fuel cs with
    | some (v, r) =>
      match skipWs r with
      | ',' :: r2 =>
        match parseArrayBody fuel r2 with
        | some (vs, r3) => some (v :: vs, r3)
        | none => none
      | ']' :: r2 => some ([v], r2)
      | _ => none
    | none => none

end

/-- Model of `json.loads` as called by `TestRun.metadata`: parse one JSON
value and require the whole input to be consumed; `none` models the
`JSONDecodeError` Python raises on malformed input. -/
def json_loads (s : String) : Option Json :=
  match parseValue (3 * s.data.length + 16) s.data with
  | some (v, rest) => if skipWs rest = [] then some v else none
  | none => none

/-- Model of `TestRun.metadata` from models.py: if `metadata_file` is
truthy (non-null and non-empty), return `json.loads(metadata_file)` —
whose decode error on malformed input propagates unshielded (modelled by
`none`); otherwise return `{}`. -/
def testrun_metadata (metadata_file : Option String) : Option Json :=
  match metadata_file with
  | some f => if f = "" then some (.obj []) else json_loads f
  | none => some (.obj [])

/-- A Test as seen by `Build.test_summary`: its name and tri-state result. -/
structure STest where
  name : String
  result : Option Bool
deriving DecidableEq

/-- A TestRun as seen by `Build.test_summary`: its environment's slug and
its tests, in iteration order. -/
structure SRun where
  environment_slug : String
  tests : List STest
deriving DecidableEq

/-- The summary `OrderedDict` built by `Build.test_summary`; `failures` is
the insertion-ordered mapping from environment slug to failing tests. -/
structure TestSummary where
  total : Nat
  pass : Nat
  fail : Nat
  missing : Nat
  failures : List (String × List STest)
deriving DecidableEq

/-- Lookup in the `failures` ordered dict. -/
def flookup (fs : List (String × List STest)) (k : String) : Option (List STest) :=
  match fs with
  | [] => none
  | (k', v) :: rest => if k' = k then some v else flookup rest k

/-- Model of `summary['failures'][env].append(test)`, creating the list lazily:
append to the existing entry for `env`, or add a new entry at the end. -/
def addFailure (fs : List (String × List STest)) (env : String) (t : STest) :
    List (String × List STest) :=
  match fs with
  | [] => [(env, [t])]
  | (e, l) :: rest =>
    if e = env then (e, l ++ [t]) :: rest else (e, l) :: addFailure rest env t

/-- The body of the inner loop of `Build.test_summary`: classify by the
tri-state mapping `{True: 'pass', False: 'fail', None: 'missing'}`,
increment `total`, and record the test under `failures[env]` exactly when
`not test.result and test.result is not None`, i.e. when the result is
`False`. -/
def countTest (s : TestSummary) (env : String) (t : STest) : TestSummary :=
  let s :=
    match t.result with
    | some true => { s with pass := s.pass + 1 }
    | some false => { s with fail := s.fail + 1 }
    | none => { s with missing := s.missing + 1 }
  let s := { s with total := s.total + 1 }
  if t.result = some false then { s with failures := addFailure s.failures env t } else s

/-- Model of `Build.test_summary` from models.py: fold over every test of every run. -/
def test_summary (runs : List SRun) : TestSummary :=
  runs.foldl
    (fun s run => run.tests.foldl (fun s t => countTest s run.environment_slug t) s)
    { total := 0, pass := 0, fail := 0, missing := 0, failures := [] }

/-- A Test row as seen by `Test.history`: identity, the query keys
(suite, name, environment), the owning build's datetime, and the result. -/
structure PTest where
  id : Nat
  suite : String
  name : String
  environment : String
  build_datetime : Int
  result : Option Bool
deriving DecidableEq

/-- Model of `Test.History` from models.py. -/
structure History where
  since : Option PTest
  count : Nat
  last_different : Option PTest
deriving DecidableEq

/-- The filter of the `Test.history` query: same suite, same name, owning
build strictly earlier than this test's build, same environment, and not
the test itself. -/
def previous_tests (db : List PTest) (t : PTest) : List PTest :=
  db.filter fun p =>
    p.suite = t.suite ∧ p.name = t.name ∧ p.build_datetime < t.build_datetime ∧
      p.environment = t.environment ∧ p.id ≠ t.id

/-- The loop of `Test.history`: walk the prior tests most recent first;
while the result matches, advance `since` and increment `count`; stop and
record `last_different` at the first differing result. -/
def history_walk (cur : Option Bool) :
    List PTest → Option PTest → Nat → History
  | [], since, count => ⟨since, count, none⟩
  | p :: ps, since, count =>
    if p.result = cur then history_walk cur ps (some p) (count + 1)
    else ⟨since, count, some p⟩

/-- Model of `Test.history` from models.py, over a table `db` of test rows. The
store's `order_by("-test_run__build__datetime")` is modelled by requiring
(in the theorems) that `db` is ordered by build datetime descending. -/
def test_history (db : List PTest) (t : PTest) : History :=
  history_walk t.result (previous_tests db t) none 0

/-- A `Status` row: the persisted pass/fail counters (counts, hence `Nat`). -/
structure StatusRec where
  tests_pass : Nat
  tests_fail : Nat
deriving DecidableEq

/-- Model of `Status.total_tests` from models.py. -/
def total_tests (s : StatusRec) : Nat := s.tests_pass + s.tests_fail

/-- Model of `Status.pass_percentage` from models.py; the float arithmetic
`100 * (float(tests_pass) / float(total_tests))` is modelled exactly over
the rationals. -/
def pass_percentage (s : StatusRec) : ℚ :=
  if s.tests_pass > 0 then 100 * ((s.tests_pass : ℚ) / (total_tests s : ℚ)) else 0

/-- Model of `Status.fail_percentage` from models.py. -/
def fail_percentage (s : StatusRec) : ℚ := 100 - pass_percentage s

/-- One pass of `re.sub` for a literal pattern: scan left to right, and at
each position either consume a match of `pat` (emitting `rep`) or emit the
current character. Fuel-indexed; fuel = input length always suffices. -/
def replaceChars (pat rep : List Char) : Nat → List Char → List Char
  | _, [] => []
  | 0, l => l
  | fuel + 1, c :: cs =>
    if pat ≠ [] ∧ pat.isPrefixOf (c :: cs) then
      rep ++ replaceChars pat rep fuel ((c :: cs).drop pat.length)
    else
      c :: replaceChars pat rep fuel cs

/-- Model of `re.sub('-rc', '~rc', name)` from `Build.save` ('-rc' is a literal
pattern: every occurrence is rewritten). -/
def sub_rc (s : String) : String :=
  ⟨replaceChars "-rc".data "~rc".data s.data.length s.data⟩

/-- A `Build` row as seen by `Build.save`: its `name` and `version`
CharFields; the empty string models a field that was not supplied. -/
structure BuildRec where
  name : String
  version : String
deriving DecidableEq

/-- Model of `Build.save` from models.py (the name/version derivation part): if only
`version` is supplied it becomes the name, and if only `name` is supplied
the version is derived by rewriting `-rc` to `~rc`. -/
def build_save (b : BuildRec) : BuildRec :=
  let b := if b.version ≠ "" ∧ b.name = "" then { name := b.version, version := "" } else b
  if b.name ≠ "" ∧ b.version = "" then { b with version := sub_rc b.name } else b

/-- A `Build` row as seen by the checkpoint engine: its primary key and its
datetime. Row equality (Django model equality compares primary keys, and a
row determines its datetime) is structural equality. -/
structure CBuild where
  id : Nat
  datetime : Int
deriving DecidableEq

/-- A `ProjectStatus` row: the checkpointed build and the link to the
previous checkpoint (nullable). -/
inductive Checkpoint where
  | mk (build : CBuild) (previous : Option Checkpoint)

/-- The `build` field of a checkpoint. -/
def Checkpoint.build : Checkpoint → CBuild
  | ⟨b, _⟩ => b

/-- The `previous` field of a checkpoint. -/
def Checkpoint.previous : Checkpoint → Option Checkpoint
  | ⟨_, p⟩ => p

/-- The store's state for one project: its builds in the model's default
order (`Meta.ordering = ['datetime']`, ascending), and its `ProjectStatus`
rows in creation (primary key) order. -/
structure PState where
  builds : List CBuild
  chain : List Checkpoint

/-- Model of `ProjectStatus.create` from models.py: `completed_by = now - threshold`;
`build` is the last (most recent, since builds are ordered ascending by
datetime) build with `datetime < completed_by`; `previous` is the last
(greatest primary key) existing checkpoint of the project; a checkpoint is
created iff `build and (not previous or previous.build != build)`, else the
call is a no-op returning `None`. -/
def ProjectStatus_create (threshold nowT : Int) (s : PState) :
    Option Checkpoint × PState :=
  let completed_by := nowT - threshold
  let qualifying := s.builds.filter fun b => b.datetime < completed_by
  let build := qualifying.getLast?
  let previous := s.chain.getLast?
  match build with
  | none => (none, s)
  | some b =>
    match previous with
    | none =>
      let c := Checkpoint.mk b none
      (some c, { s with chain := s.chain ++ [c] })
    | some p =>
      if p.build ≠ b then
        let c := Checkpoint.mk b (some p)
        (some c, { s with chain := s.chain ++ [c] })
      else (none, s)

/-- Model of `ProjectStatus.builds` from models.py: the full build list (ascending)
when there is no previous checkpoint, otherwise the builds with datetime in
`(previous.build.datetime, self.build.datetime]` ordered ascending. -/
def ProjectStatus_builds (projectBuilds : List CBuild) (c : Checkpoint) :
    List CBuild :=
  match c.previous with
  | none => projectBuilds
  | some p =>
    projectBuilds.filter fun b =>
      p.build.datetime < b.datetime ∧ b.datetime ≤ c.build.datetime

/-- First-some choice on options (the way the walk's `since` accumulator
combines with the matched initial segment). -/
def optOr {α : Type _} (a b : Option α) : Option α :=
  match a with
  | some x => some x
  | none => b

/-- The predicate "this prior test has the same result as the current one". -/
def sameResult (cur : Option Bool) (p : PTest) : Bool := p.result = cur

/-- The concrete table for the history example: the current test (id 0,
result pass) and prior tests with results pass, pass, pass, fail, pass in
descending build-datetime order, plus one row from another environment. -/
def historyDb : List PTest :=
  [⟨0, "s", "t", "env", 10, some true⟩,
   ⟨6, "s", "t", "other-env", 6, some false⟩,
   ⟨1, "s", "t", "env", 5, some true⟩,
   ⟨2, "s", "t", "env", 4, some true⟩,
   ⟨3, "s", "t", "env", 3, some true⟩,
   ⟨4, "s", "t", "env", 2, some false⟩,
   ⟨5, "s", "t", "env", 1, some true⟩]

/-- The current test of the history example. -/
def historyCur : PTest := ⟨0, "s", "t", "env", 10, some true⟩

/-- All tests of a build's runs, in iteration order over runs then tests. -/
def allTests (runs : List SRun) : List STest :=
  runs.flatMap fun r => r.tests

/-- All tests of a build's runs, each tagged with its run's environment
slug, in iteration order over runs then tests. -/
def envPairs (runs : List SRun) : List (String × STest) :=
  runs.flatMap fun r => r.tests.map fun t => (r.environment_slug, t)

/-- The failing tests of environment `e`, in iteration order over runs
then tests (the reference result for the `failures` ordered dict). -/
def failuresSpec (runs : List SRun) (e : String) : List STest :=
  ((envPairs runs).filter fun p => p.1 = e ∧ p.2.result = some false).map Prod.snd

/-- Append onto an optional (lazily created) failure list: absent stays
absent when nothing is appended, and otherwise the list materializes. -/
def appendOptList (o : Option (List STest)) (l : List STest) : Option (List STest) :=
  match o, l with
  | none, [] => none
  | none, l => some l
  | some m, l => some (m ++ l)

/-- The build `ProjectStatus.create` checkpoints when it fires: the most
recent build of the project with datetime strictly older than
`now - threshold`. -/
def isCandidate (threshold nowT : Int) (s : PState) (b : CBuild) : Prop :=
  b ∈ s.builds ∧ b.datetime < nowT - threshold ∧
    ∀ b' ∈ s.builds, b'.datetime < nowT - threshold → b'.datetime ≤ b.datetime

/-- Specification of one `ProjectStatus.create` call: it fires exactly when
a candidate build exists and the latest checkpoint (if any) is not already
at it — in that case the new checkpoint stores the candidate and the
previous checkpoint and is appended to the chain; otherwise the call
returns absent and leaves the state unchanged — and a second call in
immediate succession is always a no-op. -/
def CreateSpec (threshold nowT : Int) (s : PState) : Prop :=
  (∀ c, (ProjectStatus_create threshold nowT s).1 = some c →
    (ProjectStatus_create threshold nowT s).2.builds = s.builds ∧
    (ProjectStatus_create threshold nowT s).2.chain = s.chain ++ [c] ∧
    c.previous = s.chain.getLast? ∧
    isCandidate threshold nowT s c.build ∧
    (∀ p, s.chain.getLast? = some p → p.build ≠ c.build)) ∧
  ((ProjectStatus_create threshold nowT s).1 = none →
    (ProjectStatus_create threshold nowT s).2 = s ∧
    ∀ b, isCandidate threshold nowT s b →
      ∃ p, s.chain.getLast? = some p ∧ p.build = b) ∧
  ((ProjectStatus_create threshold nowT
      ((ProjectStatus_create threshold nowT s).2)).1 = none ∧
    (ProjectStatus_create threshold nowT
      ((ProjectStatus_create threshold nowT s).2)).2 =
      (ProjectStatus_create threshold nowT s).2)

/-- C2: `Build.metadata` is NOT invariant under permuting the test runs:
because the fold re-seeds from the next run whenever the accumulator is
empty (`if metadata:` is a truthiness test), the runs
`[{"a":"1"}, {"b":"2"}, {"c":"3"}]` yield `{"c":"3"}` while the reverse
permutation yields `{"a":"1"}` — two results that are not equal as dicts. -/
theorem c2_metadata_fold_not_commutative :
    ([[("a", JVal.s "1")], [("b", JVal.s "2")], [("c", JVal.s "3")]] : List MDict).Perm
      [[("c", JVal.s "3")], [("b", JVal.s "2")], [("a", JVal.s "1")]] ∧
    build_metadata [[("a", JVal.s "1")], [("b", JVal.s "2")], [("c", JVal.s "3")]]
      = [("c", JVal.s "3")] ∧
    build_metadata [[("c", JVal.s "3")], [("b", JVal.s "2")], [("a", JVal.s "1")]]
      = [("a", JVal.s "1")] ∧
    ¬ dictEq [("c", JVal.s "3")] [("a", JVal.s "1")] := by
  refine ⟨by decide, by decide, by decide, by decide⟩

/-- C3: `Build.metadata` is NOT the set of key/value pairs common to all
test runs: on runs `[{"a":"1"}, {"b":"2"}, {"c":"3"}]` it returns
`{"c":"3"}`, a pair absent from the first run (the common subset is empty).
The zero-run case does return the empty mapping. -/
theorem c3_metadata_not_common_pairs :
    build_metadata [] = ([] : MDict) ∧
    build_metadata [[("a", JVal.s "1")], [("b", JVal.s "2")], [("c", JVal.s "3")]]
      = [("c", JVal.s "3")] ∧
    dlookup [("a", JVal.s "1")] "c" = none := by
  refine ⟨rfl, by decide, by decide⟩

/-- C7: `total_tests` is the sum of the pass and fail counters;
`pass_percentage` is `0` when `tests_pass == 0` and otherwise
`100 * tests_pass / total_tests` (exact division);
`fail_percentage` is `100 - pass_percentage`; in particular
`(0, 5) ↦ (0, 100)` and `(3, 1) ↦ 75`. -/
theorem c7_status_percentages :
    (∀ s : StatusRec, total_tests s = s.tests_pass + s.tests_fail) ∧
    (∀ s : StatusRec, pass_percentage s =
      if s.tests_pass = 0 then 0
      else 100 * ((s.tests_pass : ℚ) / ((s.tests_pass + s.tests_fail : Nat) : ℚ))) ∧
    (∀ s : StatusRec, fail_percentage s = 100 - pass_percentage s) ∧
    pass_percentage ⟨0, 5⟩ = 0 ∧ fail_percentage ⟨0, 5⟩ = 100 ∧
    pass_percentage ⟨3, 1⟩ = 75 := by
  refine ⟨fun s => rfl, fun s => ?_, fun s => rfl, ?_, ?_, ?_⟩
  · unfold pass_percentage total_tests
    rcases Nat.eq_zero_or_pos s.tests_pass with h | h
    · simp [h]
    · rw [if_pos h, if_neg (Nat.pos_iff_ne_zero.mp h)]
  · norm_num [pass_percentage]
  · norm_num [fail_percentage, pass_percentage]
  · norm_num [pass_percentage, total_tests]

/-- C10: pass and fail percentages always sum to 100; in particular a
`Status` with zero pass and zero fail reports `fail_percentage = 100`. -/
theorem c10_percentages_sum_to_hundred :
    (∀ s : StatusRec, pass_percentage s + fail_percentage s = 100) ∧
    fail_percentage ⟨0, 0⟩ = 100 := by
  constructor
  · intro s
    unfold fail_percentage
    ring
  · norm_num [fail_percentage, pass_percentage]

/-- C9: on save, a build with a name and no version derives its version by
rewriting `-rc` to `~rc` in the name; a build with both name and version
keeps both as given; in particular name `"1.0-rc1"` yields version
`"1.0~rc1"`. -/
theorem c9_version_derivation :
    (∀ name : String, name ≠ "" → build_save ⟨name, ""⟩ = ⟨name, sub_rc name⟩) ∧
    (∀ name version : String, name ≠ "" → version ≠ "" →
      build_save ⟨name, version⟩ = ⟨name, version⟩) ∧
    build_save ⟨"1.0-rc1", ""⟩ = ⟨"1.0-rc1", "1.0~rc1"⟩ ∧
    sub_rc "1.0-rc1" = "1.0~rc1" := by
  refine ⟨fun name h => ?_, fun name version h1 h2 => ?_, by decide, by decide⟩
  · simp [build_save, h]
  · simp [build_save, h1, h2]

/-- Witness for C9 at concrete builds. -/
theorem c9_version_derivation_witness :
    build_save ⟨"1.0-rc1", ""⟩ = ⟨"1.0-rc1", sub_rc "1.0-rc1"⟩ ∧
    build_save ⟨"2.0", "2.0-final"⟩ = ⟨"2.0", "2.0-final"⟩ :=
  ⟨c9_version_derivation.1 "1.0-rc1" (by decide),
   c9_version_derivation.2.1 "2.0" "2.0-final" (by decide) (by decide)⟩

/-- C8 counterexample: a `TestRun` whose `metadata_file` is the malformed
string `"{"` does not yield the empty mapping — `json.loads` raises
(modelled by `none`). -/
theorem c8_malformed_metadata_counterexample :
    json_loads "\x7b" = none ∧ testrun_metadata (some "\x7b") ≠ some (Json.obj []) := by
  refine ⟨rfl, ?_⟩
  intro h
  rw [show testrun_metadata (some "\x7b") = none from rfl] at h
  exact Option.noConfusion h

/-- C8 (amended): when `metadata_file` is absent or empty, `TestRun.metadata`
yields the empty mapping; a non-empty `metadata_file` is handed unguarded to
`json.loads`, so on malformed input the decode error propagates instead of
yielding the empty mapping, while well-formed JSON (including non-string
values, nested objects, arrays and escaped strings) parses as usual. -/
theorem c8_metadata_raises_on_malformed :
    testrun_metadata none = some (Json.obj []) ∧
    testrun_metadata (some "") = some (Json.obj []) ∧
    (∀ f : String, testrun_metadata (some f) =
      if f = "" then some (Json.obj []) else json_loads f) ∧
    testrun_metadata (some "\x7b") = none ∧
    testrun_metadata (some "not json") = none ∧
    json_loads "\x7b\x7d" = some (Json.obj []) ∧
    json_loads "\x7b\x22foo\x22: \x22bar\x22\x7d" = some (Json.obj [("foo", Json.str "bar")]) ∧
    json_loads "\x7b\x22a\x22: 1\x7d" = some (Json.obj [("a", Json.num "1")]) ∧
    json_loads "\x7b\x22foo\x22: \x22bar\x22, \x22baz\x22: [\x22qux\x22]\x7d" =
      some (Json.obj [("foo", Json.str "bar"), ("baz", Json.arr [Json.str "qux"])]) ∧
    json_loads "\x7b\x22o\x22: \x7b\x22k\x22: [1, true, null, \x22s\\n\x22]\x7d\x7d" =
      some (Json.obj [("o", Json.obj [("k",
        Json.arr [Json.num "1", Json.bool true, Json.nullv, Json.str "s\n"])])]) ∧
    json_loads "\x7b\x22a\x22: 1,\x7d" = none := by
  exact ⟨rfl, rfl, fun f => rfl, rfl, rfl, rfl, rfl, rfl, rfl, rfl, rfl⟩

lemma optOr_none_right {α : Type _} (a : Option α) : optOr a none = a := by
  cases a <;> rfl

lemma getLast?_cons_eq_optOr {α : Type _} (a : α) (l : List α) :
    (a :: l).getLast? = optOr l.getLast? (some a) := by
  cases hl : l.getLast? with
  | none =>
    rw [List.getLast?_eq_none_iff] at hl
    subst hl
    rfl
  | some x =>
    rw [List.getLast?_eq_some_iff] at hl
    obtain ⟨ys, rfl⟩ := hl
    show (a :: (ys ++ [x])).getLast? = some x
    rw [← List.cons_append, List.getLast?_concat]

/-- Characterization of the `Test.history` loop: over any list of prior
tests, `since` ends at the last element of the initial same-result segment
(falling back to its initial value), `count` grows by that segment's
length, and `last_different` is the first element past that segment. -/
lemma history_walk_char (cur : Option Bool) (l : List PTest) :
    ∀ (since : Option PTest) (count : Nat),
      history_walk cur l since count =
        ⟨optOr ((l.takeWhile (sameResult cur)).getLast?) since,
         count + (l.takeWhile (sameResult cur)).length,
         (l.dropWhile (sameResult cur)).head?⟩ := by
  induction l with
  | nil =>
    intro since count
    simp [history_walk, optOr]
  | cons p ps ih =>
    intro since count
    by_cases h : p.result = cur
    · have hb : sameResult cur p = true := by
        simp [sameResult, h]
      rw [List.takeWhile_cons_of_pos hb, List.dropWhile_cons_of_pos hb]
      simp only [history_walk, if_pos h, ih (some p) (count + 1),
        getLast?_cons_eq_optOr, List.length_cons]
      refine congrArg₂ (History.mk · · _) ?_ (by omega)
      cases hps : (ps.takeWhile (sameResult cur)).getLast? <;> rfl
    · have hb : ¬ sameResult cur p = true := by
        simp [sameResult, h]
      rw [List.takeWhile_cons_of_neg hb, List.dropWhile_cons_of_neg hb]
      simp [history_walk, if_neg h, optOr]

/-- C4: `Test.history` walks the prior tests with the same suite, name and
environment and a strictly earlier build, most recent first: the walked
list is ordered by build datetime descending, `count` is the length of the
initial run of same-result tests, `since` is its last (oldest) element, and
`last_different` is the first test past it (absent when every prior test
matches). -/
theorem c4_history_streak (db : List PTest) (t : PTest)
    (hdb : db.Pairwise fun a b => b.build_datetime ≤ a.build_datetime) :
    (previous_tests db t).Pairwise (fun a b => b.build_datetime ≤ a.build_datetime) ∧
    test_history db t =
      ⟨((previous_tests db t).takeWhile (sameResult t.result)).getLast?,
       ((previous_tests db t).takeWhile (sameResult t.result)).length,
       ((previous_tests db t).dropWhile (sameResult t.result)).head?⟩ := by
  refine ⟨List.Pairwise.filter _ hdb, ?_⟩
  unfold test_history
  rw [history_walk_char]
  rw [optOr_none_right, Nat.zero_add]

/-- Witness for C4: with prior results `[pass, pass, pass, fail, pass]`
(most recent first) and current result pass, `count = 3`, `since` is the
third prior test and `last_different` is the fail. -/
theorem c4_history_streak_witness :
    ((previous_tests historyDb historyCur).Pairwise
        (fun a b => b.build_datetime ≤ a.build_datetime) ∧
      test_history historyDb historyCur =
        ⟨((previous_tests historyDb historyCur).takeWhile (sameResult historyCur.result)).getLast?,
         ((previous_tests historyDb historyCur).takeWhile (sameResult historyCur.result)).length,
         ((previous_tests historyDb historyCur).dropWhile (sameResult historyCur.result)).head?⟩) ∧
    test_history historyDb historyCur =
      ⟨some ⟨3, "s", "t", "env", 3, some true⟩, 3,
       some ⟨4, "s", "t", "env", 2, some false⟩⟩ :=
  ⟨c4_history_streak historyDb historyCur (by decide), by decide⟩

lemma countTest_total (s : TestSummary) (env : String) (t : STest) :
    (countTest s env t).total = s.total + 1 := by
  cases h : t.result with
  | none => simp [countTest, h]
  | some b => cases b <;> simp [countTest, h]

lemma countTest_pass (s : TestSummary) (env : String) (t : STest) :
    (countTest s env t).pass = s.pass + if t.result = some true then 1 else 0 := by
  cases h : t.result with
  | none => simp [countTest, h]
  | some b => cases b <;> simp [countTest, h]

lemma countTest_fail (s : TestSummary) (env : String) (t : STest) :
    (countTest s env t).fail = s.fail + if t.result = some false then 1 else 0 := by
  cases h : t.result with
  | none => simp [countTest, h]
  | some b => cases b <;> simp [countTest, h]

lemma countTest_missing (s : TestSummary) (env : String) (t : STest) :
    (countTest s env t).missing = s.missing + if t.result = none then 1 else 0 := by
  cases h : t.result with
  | none => simp [countTest, h]
  | some b => cases b <;> simp [countTest, h]

lemma countTest_failures (s : TestSummary) (env : String) (t : STest) :
    (countTest s env t).failures =
      if t.result = some false then addFailure s.failures env t else s.failures := by
  cases h : t.result with
  | none => simp [countTest, h]
  | some b => cases b <;> simp [countTest, h]

lemma test_summary_eq_foldl (runs : List SRun) :
    test_summary runs =
      (envPairs runs).foldl (fun s p => countTest s p.1 p.2) ⟨0, 0, 0, 0, []⟩ := by
  unfold test_summary
  suffices h : ∀ (rs : List SRun) (s : TestSummary),
      rs.foldl
        (fun s run => run.tests.foldl (fun s t => countTest s run.environment_slug t) s) s
        = (envPairs rs).foldl (fun s p => countTest s p.1 p.2) s from h runs _
  intro rs
  induction rs with
  | nil => intro s; rfl
  | cons r rest ih =>
    intro s
    have hsplit : envPairs (r :: rest) =
        (r.tests.map fun t => (r.environment_slug, t)) ++ envPairs rest := by
      simp [envPairs]
    rw [List.foldl_cons, ih, hsplit, List.foldl_append, List.foldl_map]

lemma foldl_counts (l : List (String × STest)) :
    ∀ s : TestSummary,
      ((l.foldl (fun s p => countTest s p.1 p.2) s).total = s.total + l.length) ∧
      ((l.foldl (fun s p => countTest s p.1 p.2) s).pass =
        s.pass + l.countP fun p => p.2.result = some true) ∧
      ((l.foldl (fun s p => countTest s p.1 p.2) s).fail =
        s.fail + l.countP fun p => p.2.result = some false) ∧
      ((l.foldl (fun s p => countTest s p.1 p.2) s).missing =
        s.missing + l.countP fun p => p.2.result = none) := by
  induction l with
  | nil => intro s; simp
  | cons p t ih =>
    intro s
    obtain ⟨h1, h2, h3, h4⟩ := ih (countTest s p.1 p.2)
    simp only [List.foldl_cons, List.countP_cons, List.length_cons]
    refine ⟨?_, ?_, ?_, ?_⟩
    · rw [h1, countTest_total]
      omega
    · rw [h2, countTest_pass]
      by_cases hres : p.2.result = some true <;> (simp [hres]; try omega)
    · rw [h3, countTest_fail]
      by_cases hres : p.2.result = some false <;> (simp [hres]; try omega)
    · rw [h4, countTest_missing]
      by_cases hres : p.2.result = none <;> (simp [hres]; try omega)

lemma flookup_addFailure_self (fs : List (String × List STest)) (env : String) (t : STest) :
    flookup (addFailure fs env t) env = some ((flookup fs env).getD [] ++ [t]) := by
  induction fs with
  | nil => simp [addFailure, flookup]
  | cons kv rest ih =>
    obtain ⟨e, l⟩ := kv
    by_cases he : e = env
    · subst he
      simp [addFailure, flookup]
    · simp [addFailure, flookup, he, ih]

lemma flookup_addFailure_ne (fs : List (String × List STest)) (env : String)
    (t : STest) (e : String) (h : e ≠ env) :
    flookup (addFailure fs env t) e = flookup fs e := by
  induction fs with
  | nil => simp [addFailure, flookup, Ne.symm h]
  | cons kv rest ih =>
    obtain ⟨e1, l⟩ := kv
    by_cases he : e1 = env
    · subst he
      simp [addFailure, flookup, Ne.symm h]
    · by_cases h2 : e1 = e <;> simp [addFailure, flookup, he, h2, h, ih]

lemma appendOptList_nil (o : Option (List STest)) : appendOptList o [] = o := by
  cases o <;> simp [appendOptList]

lemma appendOptList_none (l : List STest) :
    appendOptList none l = if l = [] then none else some l := by
  cases l <;> simp [appendOptList]

lemma appendOptList_push (o : Option (List STest)) (x : STest) (l : List STest) :
    appendOptList (some (o.getD [] ++ [x])) l = appendOptList o (x :: l) := by
  cases o <;> simp [appendOptList]

lemma foldl_failures (l : List (String × STest)) :
    ∀ (s : TestSummary) (e : String),
      flookup ((l.foldl (fun s p => countTest s p.1 p.2) s).failures) e =
        appendOptList (flookup s.failures e)
          ((l.filter fun p => p.1 = e ∧ p.2.result = some false).map Prod.snd) := by
  induction l with
  | nil =>
    intro s e
    simp [appendOptList_nil]
  | cons p t ih =>
    intro s e
    simp only [List.foldl_cons]
    rw [ih]
    by_cases hres : p.2.result = some false
    · by_cases henv : p.1 = e
      · have hkeep : (p :: t).filter (fun p => p.1 = e ∧ p.2.result = some false) =
            p :: t.filter (fun p => p.1 = e ∧ p.2.result = some false) := by
          simp [List.filter_cons, henv, hres]
        rw [hkeep, List.map_cons, countTest_failures, if_pos hres, ← henv,
          flookup_addFailure_self, henv, appendOptList_push]
      · have hdrop : (p :: t).filter (fun p => p.1 = e ∧ p.2.result = some false) =
            t.filter (fun p => p.1 = e ∧ p.2.result = some false) := by
          simp [List.filter_cons, henv]
        rw [hdrop, countTest_failures, if_pos hres,
          flookup_addFailure_ne _ _ _ _ (Ne.symm henv)]
    · have hdrop : (p :: t).filter (fun p => p.1 = e ∧ p.2.result = some false) =
          t.filter (fun p => p.1 = e ∧ p.2.result = some false) := by
        simp [List.filter_cons, hres]
      rw [hdrop, countTest_failures, if_neg hres]

lemma map_snd_envPairs (runs : List SRun) :
    (envPairs runs).map Prod.snd = allTests runs := by
  induction runs with
  | nil => rfl
  | cons r rest ih =>
    simp only [envPairs, allTests, List.flatMap_cons, List.map_append, List.map_map] at *
    rw [ih]
    simp [Function.comp]

lemma tri_partition (l : List STest) :
    (l.countP fun t => t.result = some true) + (l.countP fun t => t.result = some false) +
      (l.countP fun t => t.result = none) = l.length := by
  induction l with
  | nil => simp
  | cons x t ih =>
    simp only [List.countP_cons, List.length_cons]
    cases hx : x.result with
    | none => simp [hx]; omega
    | some b => cases b <;> (simp [hx]; try omega)

/-- C5: `Build.test_summary` classifies every test of every run by the
tri-state mapping — `pass`, `fail` and `missing` count exactly the tests
with result true, false and null respectively, so `total` is their sum and
a null result is never counted as a failure — and `failures[env]` is
exactly the list of tests with result false in the runs of that
environment, in iteration order, the list being created lazily (the key is
absent when that environment has no failure). -/
theorem c5_test_summary_classification (runs : List SRun) :
    (test_summary runs).total =
      (test_summary runs).pass + (test_summary runs).fail + (test_summary runs).missing ∧
    (test_summary runs).pass = ((allTests runs).countP fun t => t.result = some true) ∧
    (test_summary runs).fail = ((allTests runs).countP fun t => t.result = some false) ∧
    (test_summary runs).missing = ((allTests runs).countP fun t => t.result = none) ∧
    (∀ e, flookup (test_summary runs).failures e =
      if failuresSpec runs e = [] then none else some (failuresSpec runs e)) := by
  obtain ⟨h1, h2, h3, h4⟩ := foldl_counts (envPairs runs) ⟨0, 0, 0, 0, []⟩
  have hmapT : ((envPairs runs).countP fun p => p.2.result = some true) =
      (allTests runs).countP fun t => t.result = some true := by
    rw [← map_snd_envPairs, List.countP_map]
    rfl
  have hmapF : ((envPairs runs).countP fun p => p.2.result = some false) =
      (allTests runs).countP fun t => t.result = some false := by
    rw [← map_snd_envPairs, List.countP_map]
    rfl
  have hmapN : ((envPairs runs).countP fun p => p.2.result = none) =
      (allTests runs).countP fun t => t.result = none := by
    rw [← map_snd_envPairs, List.countP_map]
    rfl
  have hlen : (envPairs runs).length = (allTests runs).length := by
    rw [← map_snd_envPairs, List.length_map]
  rw [test_summary_eq_foldl] at *
  refine ⟨?_, ?_, ?_, ?_, ?_⟩
  · rw [h1, h2, h3, h4]
    simp only [Nat.zero_add]
    rw [hmapT, hmapF, hmapN, hlen]
    exact (tri_partition (allTests runs)).symm
  · rw [h2]
    simpa using hmapT
  · rw [h3]
    simpa using hmapF
  · rw [h4]
    simpa using hmapN
  · intro e
    rw [foldl_failures]
    show appendOptList none (failuresSpec runs e) = _
    rw [appendOptList_none]

/-- C6: the `builds` accessor of a checkpoint returns all builds of the
project (ascending by datetime) when the checkpoint has no previous one,
and otherwise exactly the project's builds with datetime strictly greater
than the previous checkpoint's build datetime and at most this
checkpoint's build datetime, ordered ascending. -/
theorem c6_checkpoint_builds (pb : List CBuild) (c : Checkpoint)
    (hpb : pb.Pairwise fun a b => a.datetime ≤ b.datetime) :
    (c.previous = none →
      ProjectStatus_builds pb c = pb ∧
      (ProjectStatus_builds pb c).Pairwise fun a b => a.datetime ≤ b.datetime) ∧
    (∀ p, c.previous = some p →
      (∀ b, b ∈ ProjectStatus_builds pb c ↔
        b ∈ pb ∧ p.build.datetime < b.datetime ∧ b.datetime ≤ c.build.datetime) ∧
      (ProjectStatus_builds pb c).Pairwise fun a b => a.datetime ≤ b.datetime) := by
  constructor
  · intro h
    have he : ProjectStatus_builds pb c = pb := by
      simp [ProjectStatus_builds, h]
    rw [he]
    exact ⟨rfl, hpb⟩
  · intro p h
    have he : ProjectStatus_builds pb c =
        pb.filter fun b => p.build.datetime < b.datetime ∧ b.datetime ≤ c.build.datetime := by
      simp [ProjectStatus_builds, h]
    rw [he]
    refine ⟨?_, List.Pairwise.filter _ hpb⟩
    intro b
    simp [List.mem_filter]

/-- Witness for C6: previous checkpoint at `B1` (t=1), current at `B3`
(t=3), intermediate `B2` (t=2): `builds == [B2, B3]`. -/
theorem c6_checkpoint_builds_witness :
    ((Checkpoint.mk ⟨3, 3⟩ (some (Checkpoint.mk ⟨1, 1⟩ none))).previous = none →
      ProjectStatus_builds [⟨1, 1⟩, ⟨2, 2⟩, ⟨3, 3⟩]
          (Checkpoint.mk ⟨3, 3⟩ (some (Checkpoint.mk ⟨1, 1⟩ none))) =
        [⟨1, 1⟩, ⟨2, 2⟩, ⟨3, 3⟩] ∧
      (ProjectStatus_builds [⟨1, 1⟩, ⟨2, 2⟩, ⟨3, 3⟩]
          (Checkpoint.mk ⟨3, 3⟩ (some (Checkpoint.mk ⟨1, 1⟩ none)))).Pairwise
        fun a b => a.datetime ≤ b.datetime) ∧
    (∀ p, (Checkpoint.mk ⟨3, 3⟩ (some (Checkpoint.mk ⟨1, 1⟩ none))).previous = some p →
      (∀ b, b ∈ ProjectStatus_builds [⟨1, 1⟩, ⟨2, 2⟩, ⟨3, 3⟩]
          (Checkpoint.mk ⟨3, 3⟩ (some (Checkpoint.mk ⟨1, 1⟩ none))) ↔
        b ∈ [⟨1, 1⟩, ⟨2, 2⟩, ⟨3, 3⟩] ∧ p.build.datetime < b.datetime ∧
          b.datetime ≤ (Checkpoint.mk (⟨3, 3⟩ : CBuild)
            (some (Checkpoint.mk ⟨1, 1⟩ none))).build.datetime) ∧
      (ProjectStatus_builds [⟨1, 1⟩, ⟨2, 2⟩, ⟨3, 3⟩]
          (Checkpoint.mk ⟨3, 3⟩ (some (Checkpoint.mk ⟨1, 1⟩ none)))).Pairwise
        fun a b => a.datetime ≤ b.datetime) ∧
    ProjectStatus_builds [⟨1, 1⟩, ⟨2, 2⟩, ⟨3, 3⟩]
        (Checkpoint.mk ⟨3, 3⟩ (some (Checkpoint.mk ⟨1, 1⟩ none))) = [⟨2, 2⟩, ⟨3, 3⟩] := by
  have h := c6_checkpoint_builds [⟨1, 1⟩, ⟨2, 2⟩, ⟨3, 3⟩]
    (Checkpoint.mk ⟨3, 3⟩ (some (Checkpoint.mk ⟨1, 1⟩ none))) (by decide)
  exact ⟨h.1, h.2, by decide⟩

lemma mem_of_getLast?_eq {α : Type _} {l : List α} {b : α}
    (h : l.getLast? = some b) : b ∈ l := by
  rw [List.getLast?_eq_some_iff] at h
  obtain ⟨ys, rfl⟩ := h
  simp

lemma datetime_le_getLast (l : List CBuild)
    (hl : l.Pairwise fun a b => a.datetime < b.datetime) (x b : CBuild)
    (hx : x ∈ l) (hb : l.getLast? = some b) : x.datetime ≤ b.datetime := by
  rw [List.getLast?_eq_some_iff] at hb
  obtain ⟨ys, rfl⟩ := hb
  rw [List.pairwise_append] at hl
  rcases List.mem_append.mp hx with h | h
  · exact le_of_lt (hl.2.2 x h b (by simp))
  · rw [List.mem_singleton.mp h]

lemma eq_of_datetime_eq (l : List CBuild)
    (hl : l.Pairwise fun a b => a.datetime < b.datetime) (x y : CBuild)
    (hx : x ∈ l) (hy : y ∈ l) (hxy : x.datetime = y.datetime) : x = y := by
  induction l with
  | nil => exact absurd hx (List.not_mem_nil x)
  | cons a t ih =>
    rw [List.pairwise_cons] at hl
    rcases List.mem_cons.mp hx with rfl | hx2
    · rcases List.mem_cons.mp hy with rfl | hy2
      · rfl
      · exact absurd hxy (ne_of_lt (hl.1 y hy2))
    · rcases List.mem_cons.mp hy with rfl | hy2
      · exact absurd hxy.symm (ne_of_lt (hl.1 x hx2))
      · exact ih hl.2 hx2 hy2

lemma candidate_of_getLast (threshold nowT : Int) (s : PState)
    (hs : s.builds.Pairwise fun a b => a.datetime < b.datetime) (b : CBuild)
    (hb : (s.builds.filter fun x => x.datetime < nowT - threshold).getLast? = some b) :
    isCandidate threshold nowT s b := by
  have hmem := mem_of_getLast?_eq hb
  rw [List.mem_filter] at hmem
  refine ⟨hmem.1, by simpa using hmem.2, ?_⟩
  intro b' hb' hlt
  have hmem' : b' ∈ s.builds.filter fun x => x.datetime < nowT - threshold :=
    List.mem_filter.mpr ⟨hb', by simpa using hlt⟩
  exact datetime_le_getLast _ (hs.filter _) b' b hmem' hb

lemma getLast_of_candidate (threshold nowT : Int) (s : PState)
    (hs : s.builds.Pairwise fun a b => a.datetime < b.datetime) (b : CBuild)
    (hc : isCandidate threshold nowT s b) :
    (s.builds.filter fun x => x.datetime < nowT - threshold).getLast? = some b := by
  obtain ⟨hbmem, hbold, hbmax⟩ := hc
  have hbf : b ∈ s.builds.filter fun x => x.datetime < nowT - threshold :=
    List.mem_filter.mpr ⟨hbmem, by simpa using hbold⟩
  cases h0 : (s.builds.filter fun x => x.datetime < nowT - threshold).getLast? with
  | none =>
    rw [List.getLast?_eq_none_iff] at h0
    rw [h0] at hbf
    exact absurd hbf (List.not_mem_nil b)
  | some b0 =>
    obtain ⟨h0mem, h0old, h0max⟩ := candidate_of_getLast threshold nowT s hs b0 h0
    have h1 : b0.datetime ≤ b.datetime := hbmax b0 h0mem h0old
    have h2 : b.datetime ≤ b0.datetime := h0max b hbmem hbold
    rw [eq_of_datetime_eq s.builds hs b0 b h0mem hbmem (le_antisymm h1 h2)]

/-- C1: `ProjectStatus.create` creates and returns a new checkpoint iff a
candidate build exists (the most recent build strictly older than
`now - threshold`) and the latest existing checkpoint is absent or not
already at that build; the new checkpoint stores the candidate and the
previous checkpoint and is appended to the chain; otherwise the call
returns absent and changes nothing. A second call in immediate succession
is a no-op, so two consecutive calls yield exactly one checkpoint. -/
theorem c1_create_checkpoint (threshold nowT : Int) (s : PState)
    (hs : s.builds.Pairwise fun a b => a.datetime < b.datetime) :
    CreateSpec threshold nowT s := by
  unfold CreateSpec
  cases hq : (s.builds.filter fun x => x.datetime < nowT - threshold).getLast? with
  | none =>
    have hnone : ProjectStatus_create threshold nowT s = (none, s) := by
      simp [ProjectStatus_create, hq]
    refine ⟨?_, ?_, ?_⟩
    · intro c hc
      rw [hnone] at hc
      simp at hc
    · intro _
      refine ⟨by rw [hnone], ?_⟩
      intro b hcand
      have := getLast_of_candidate threshold nowT s hs b hcand
      rw [hq] at this
      simp at this
    · rw [hnone]
      exact ⟨by rw [hnone], by rw [hnone]⟩
  | some b =>
    cases hp : s.chain.getLast? with
    | none =>
      have heq : ProjectStatus_create threshold nowT s =
          (some (Checkpoint.mk b none),
            { s with chain := s.chain ++ [Checkpoint.mk b none] }) := by
        simp [ProjectStatus_create, hq, hp]
      refine ⟨?_, ?_, ?_⟩
      · intro c hc
        rw [heq] at hc
        obtain rfl : Checkpoint.mk b none = c := by simpa using hc
        refine ⟨by rw [heq], by rw [heq], rfl,
          candidate_of_getLast threshold nowT s hs b hq, ?_⟩
        intro p hpp
        simp at hpp
      · intro hcnone
        rw [heq] at hcnone
        simp at hcnone
      · rw [heq]
        have hp1 : (({ s with chain := s.chain ++ [Checkpoint.mk b none] } : PState)).chain.getLast?
            = some (Checkpoint.mk b none) := List.getLast?_concat _
        constructor
        · simp [ProjectStatus_create, hq, hp1, Checkpoint.build]
        · simp [ProjectStatus_create, hq, hp1, Checkpoint.build]
    | some p =>
      by_cases hne : p.build = b
      · have hnone : ProjectStatus_create threshold nowT s = (none, s) := by
          simp [ProjectStatus_create, hq, hp, hne]
        refine ⟨?_, ?_, ?_⟩
        · intro c hc
          rw [hnone] at hc
          simp at hc
        · intro _
          refine ⟨by rw [hnone], ?_⟩
          intro b' hcand
          have hlast := getLast_of_candidate threshold nowT s hs b' hcand
          rw [hq] at hlast
          obtain rfl : b = b' := by simpa using hlast
          exact ⟨p, rfl, hne⟩
        · rw [hnone]
          exact ⟨by rw [hnone], by rw [hnone]⟩
      · have heq : ProjectStatus_create threshold nowT s =
            (some (Checkpoint.mk b (some p)),
              { s with chain := s.chain ++ [Checkpoint.mk b (some p)] }) := by
          simp [ProjectStatus_create, hq, hp, hne]
        refine ⟨?_, ?_, ?_⟩
        · intro c hc
          rw [heq] at hc
          obtain rfl : Checkpoint.mk b (some p) = c := by simpa using hc
          refine ⟨by rw [heq], by rw [heq], rfl,
            candidate_of_getLast threshold nowT s hs b hq, ?_⟩
          intro p' hpp
          obtain rfl : p = p' := by simpa using hpp
          exact hne
        · intro hcnone
          rw [heq] at hcnone
          simp at hcnone
        · rw [heq]
          have hp1 : (({ s with chain := s.chain ++ [Checkpoint.mk b (some p)] } : PState)).chain.getLast?
              = some (Checkpoint.mk b (some p)) := List.getLast?_concat _
          constructor
          · simp [ProjectStatus_create, hq, hp1, Checkpoint.build]
          · simp [ProjectStatus_create, hq, hp1, Checkpoint.build]

/-- Witness for C1: a project with one build old enough to qualify and no
checkpoint yet; `create` fires once and a second call is a no-op. -/
theorem c1_create_checkpoint_witness :
    CreateSpec 10 50 ⟨[⟨1, 0⟩], []⟩ ∧
    (ProjectStatus_create 10 50 ⟨[⟨1, 0⟩], []⟩).1 = some (Checkpoint.mk ⟨1, 0⟩ none) ∧
    (ProjectStatus_create 10 50
      ((ProjectStatus_create 10 50 ⟨[⟨1, 0⟩], []⟩).2)).1 = none :=
  ⟨c1_create_checkpoint 10 50 ⟨[⟨1, 0⟩], []⟩ (by decide), rfl, rfl⟩
